import Mathlib

/-!
Verification of the repository's two Python source files against its
natural-language specification.

The embedding models the scripts' pure computations directly and models
their interactions with the outside world (files, subprocesses, prompts,
directory listings) by passing the relevant state explicitly:

* `publish_to_pypi.py`: version extraction (`get_current_version`),
  version increment (`increment_version`), in-place rewrite
  (`update_version_in_files`), build-directory cleanup
  (`clean_build_directories`), external tool invocation (`build_package`,
  `upload_to_pypi`), the egg-info consistency check
  (`check_egg_info_version`) and the `main` workflow.
* `__init__.py`: the plugin entry point `load` (here `pluginLoad`).

Python strings are modelled as Lean `String`s; all character-level
operations (splitting, joining, regex matching) are implemented on
`List Char` so that every definition evaluates by kernel reduction.
-/

/-- `sep`-splitting of a character list, the model of Python's
`str.split(sep)` for a one-character separator: `[]` splits to `[[]]`,
and every occurrence of `sep` starts a new (possibly empty) chunk. -/
def splitOnChar (sep : Char) : List Char → List (List Char)
  | [] => [[]]
  | c :: t =>
    if c = sep then [] :: splitOnChar sep t
    else
      match splitOnChar sep t with
      | [] => [[c]]
      | s :: ss => (c :: s) :: ss

/-- Joining with a one-character separator, the model of Python's
`sep.join(parts)`; inverse of `splitOnChar` on separator-free chunks. -/
def joinChar (sep : Char) : List (List Char) → List Char
  | [] => []
  | [s] => s
  | s :: ss => s ++ sep :: joinChar sep ss

/-- Auxiliary decimal accumulator for `decDigits?`. -/
def decDigitsAux : List Char → Nat → Option Nat
  | [], acc => some acc
  | c :: cs, acc =>
    if c.isDigit then decDigitsAux cs (acc * 10 + (c.toNat - 48)) else none

/-- Parse a nonempty run of ASCII decimal digits as a natural number;
`none` on the empty list or any non-digit character. -/
def decDigits? : List Char → Option Nat
  | [] => none
  | l => decDigitsAux l 0

/-- Model of Python's `int(s)` on version components: an optional sign
followed by a nonempty run of ASCII decimal digits; any other input
raises `ValueError`, modelled as `none`.  (Python's `int` additionally
strips whitespace and accepts underscores and non-ASCII digits; no
version component in this development uses those forms.) -/
def pyInt? (s : List Char) : Option Int :=
  match s with
  | [] => none
  | c :: rest =>
    if c = '-' then (decDigits? rest).map (fun m => -(m : Int))
    else if c = '+' then (decDigits? rest).map (fun m => (m : Int))
    else (decDigits? (c :: rest)).map (fun m => (m : Int))

/-- `increment_version` from `publish_to_pypi.py`.  A falsy input
(`None` or the empty string) yields `"0.1.0"`; with three or more
dot-separated components the last component is replaced by
`str(int(last) + 1)` (a `ValueError` from `int` is modelled as `none`);
with fewer than three components a new component `1` is appended. -/
def increment_version (version : Option String) : Option String :=
  match version with
  | none => some "0.1.0"
  | some v =>
    if v = "" then some "0.1.0"
    else
      let parts := splitOnChar '.' v.data
      if 3 ≤ parts.length then
        match pyInt? parts.getLast! with
        | none => none
        | some i => some ⟨joinChar '.' (parts.dropLast ++ [(toString (i + 1)).data])⟩
      else
        some ⟨joinChar '.' (parts ++ [['1']])⟩

/-- A version string in the sense of the spec's data model: a
dot-separated sequence whose every component is a nonempty run of
decimal digits. -/
def isVersionString (v : String) : Bool :=
  (splitOnChar '.' v.data).all (fun p => (decDigits? p).isSome)

theorem pyInt?_of_decDigits {l : List Char} {n : Nat}
    (h : decDigits? l = some n) : pyInt? l = some (n : Int) := by
  match l with
  | [] => simp [decDigits?] at h
  | c :: rest =>
    have hcd : c.isDigit = true := by
      by_contra hcd
      simp [decDigits?, decDigitsAux, hcd] at h
    have h1 : c ≠ '-' := by rintro rfl; exact absurd hcd (by decide)
    have h2 : c ≠ '+' := by rintro rfl; exact absurd hcd (by decide)
    simp [pyInt?, h1, h2, h]

/-- Claim C1: for every version string with three or more dot-separated
components whose last component is a nonempty run of decimal digits
denoting `n`, `increment_version` leaves every component but the last
unchanged and replaces the last by `toString (n + 1)`; no carry into
earlier components is performed. -/
theorem increment_version_no_carry (v : String) (n : Nat)
    (h3 : 3 ≤ (splitOnChar '.' v.data).length)
    (hn : decDigits? (splitOnChar '.' v.data).getLast! = some n) :
    increment_version (some v) =
      some ⟨joinChar '.' ((splitOnChar '.' v.data).dropLast ++ [(toString (n + 1)).data])⟩ := by
  have hv : v ≠ "" := by
    rintro rfl
    revert h3
    decide
  have hi := pyInt?_of_decDigits hn
  simp only [increment_version, if_neg hv, if_pos h3, hi]
  rfl

/-- Witness for C1 at `"1.2.9"`: the last component `9` becomes `10`
with no carry into `"1.2"`. -/
theorem increment_version_no_carry_witness :
    3 ≤ (splitOnChar '.' "1.2.9".data).length ∧
    decDigits? (splitOnChar '.' "1.2.9".data).getLast! = some 9 ∧
    increment_version (some "1.2.9") = some "1.2.10" :=
  ⟨by decide, by decide, increment_version_no_carry "1.2.9" 9 (by decide) (by decide)⟩

/-- Claim C2: `increment_version` maps an absent (`None`) input to
`"0.1.0"`, and appends a new component `1` to every version string with
fewer than three dot-separated components. -/
theorem increment_version_short (v : String) (hvs : isVersionString v = true)
    (hlen : (splitOnChar '.' v.data).length < 3) :
    increment_version (some v) =
      some ⟨joinChar '.' (splitOnChar '.' v.data ++ [['1']])⟩ := by
  have hv : v ≠ "" := by
    rintro rfl
    revert hvs
    decide
  simp only [increment_version, if_neg hv, if_neg (Nat.not_le.mpr hlen)]

/-- Witness for C2: `"1.2"` becomes `"1.2.1"`, `"1"` becomes `"1.1"`,
and `None` becomes `"0.1.0"`. -/
theorem increment_version_short_witness :
    isVersionString "1.2" = true ∧ (splitOnChar '.' "1.2".data).length < 3 ∧
    increment_version (some "1.2") = some "1.2.1" ∧
    increment_version (some "1") = some "1.1" ∧
    increment_version none = some "0.1.0" :=
  ⟨by decide, by decide,
    increment_version_short "1.2" (by decide) (by decide),
    increment_version_short "1" (by decide) (by decide),
    rfl⟩

/-- Does `p` occur at the head of `l`? -/
def startsWithChars : List Char → List Char → Bool
  | [], _ => true
  | _ :: _, [] => false
  | p :: ps, c :: cs => p == c && startsWithChars ps cs

/-- Does `p` occur at the end of `l`? -/
def endsWithChars (p l : List Char) : Bool := startsWithChars p.reverse l.reverse

/-!
Both regexes of `publish_to_pypi.py` that read or rewrite version
declarations have the shape `A"([^"]+)"` for a quote-free literal `A`
(`version=` for `setup.py`, `version = ` for `pyproject.toml`).  Writing
a text as its quote-separated segments `u₀ " u₁ " u₂ " …` (each `uᵢ`
quote-free), a match of that regex is exactly: a segment `uᵢ` that ends
with `A`, followed by a nonempty segment `uᵢ₊₁`, followed by a further
quote (i.e. `uᵢ₊₁` is not the last segment); the capture is `uᵢ₊₁` and
the match consumes through the quote after `uᵢ₊₁`.  `re.search` returns
the leftmost such boundary; `re.sub` rewrites them left to right without
overlap, which in segment form replaces `uᵢ₊₁` by the new version and
resumes at `uᵢ₊₂` (the replacement `A"new"` keeps `uᵢ` and the two
quotes in place).
-/

/-- Model of `re.search(A"([^"]+)", text)` on the quote-segment
decomposition of `text`: the first capture, if any. -/
def searchSegs (A : List Char) : List (List Char) → Option (List Char)
  | u :: u' :: u'' :: us =>
    if endsWithChars A u ∧ u' ≠ [] then some u'
    else searchSegs A (u' :: u'' :: us)
  | _ => none

/-- Model of `re.sub(A"[^"]+", A"nv", text)` on the quote-segment
decomposition of `text`: every match's capture segment is replaced by
`nv`, left to right, without overlap. -/
def subSegs (A nv : List Char) : List (List Char) → List (List Char)
  | u :: u' :: u'' :: us =>
    if endsWithChars A u ∧ u' ≠ [] then u :: nv :: subSegs A nv (u'' :: us)
    else u :: subSegs A nv (u' :: u'' :: us)
  | l => l

/-- The literal before the opening quote in the `setup.py` pattern
`version="([^"]+)"`. -/
def setupA : List Char := "version=".data

/-- The literal before the opening quote in the `pyproject.toml` pattern
`version = "([^"]+)"`. -/
def pyprojectA : List Char := "version = ".data

/-- One file's half of `get_current_version`: extract the first version
declaration matched by `A"([^"]+)"` in `content`, if any. -/
def extract_version (A : List Char) (content : String) : Option String :=
  (searchSegs A (splitOnChar '"' content.data)).map (fun w => (⟨w⟩ : String))

/-- `get_current_version` from `publish_to_pypi.py`, over the two file
contents.  Returns the chosen version (or `none` when neither pattern
matches) and whether the disagreement warning was printed.  Captures are
nonempty, so Python's truthiness test on them is just presence. -/
def get_current_version (sc pc : String) : Option String × Bool :=
  let sv := extract_version setupA sc
  let pv := extract_version pyprojectA pc
  match sv, pv with
  | some s, some p => if s ≠ p then (some s, true) else (some s, false)
  | some s, none => (some s, false)
  | none, some p => (some p, false)
  | none, none => (none, false)

/-- Claim C3: when both files' patterns match and the values differ,
`get_current_version` returns the `setup.py` value and warns; when
exactly one matches, it returns that value (no warning); when neither
matches, it returns an absent value. -/
theorem get_current_version_spec (sc pc : String) :
    (∀ s p, extract_version setupA sc = some s → extract_version pyprojectA pc = some p →
      s ≠ p → get_current_version sc pc = (some s, true)) ∧
    (∀ s, extract_version setupA sc = some s → extract_version pyprojectA pc = none →
      get_current_version sc pc = (some s, false)) ∧
    (∀ p, extract_version setupA sc = none → extract_version pyprojectA pc = some p →
      get_current_version sc pc = (some p, false)) ∧
    (extract_version setupA sc = none → extract_version pyprojectA pc = none →
      get_current_version sc pc = (none, false)) := by
  refine ⟨?_, ?_, ?_, ?_⟩
  · intro s p hs hp hne
    simp only [get_current_version, hs, hp, if_pos hne]
  · intro s hs hp
    simp only [get_current_version, hs, hp]
  · intro p hs hp
    simp only [get_current_version, hs, hp]
  · intro hs hp
    simp only [get_current_version, hs, hp]

/-- Witness for C3: `setup.py` declares `1.2.3`, `pyproject.toml`
declares `1.2.4`; the `setup.py` value wins and the warning is
emitted. -/
theorem get_current_version_spec_witness :
    extract_version setupA "version=\"1.2.3\"" = some "1.2.3" ∧
    extract_version pyprojectA "version = \"1.2.4\"" = some "1.2.4" ∧
    ("1.2.3" : String) ≠ "1.2.4" ∧
    get_current_version "version=\"1.2.3\"" "version = \"1.2.4\"" = (some "1.2.3", true) :=
  ⟨by decide, by decide, by decide,
    (get_current_version_spec "version=\"1.2.3\"" "version = \"1.2.4\"").1 "1.2.3" "1.2.4"
      (by decide) (by decide) (by decide)⟩

theorem splitOnChar_nil (sep : Char) : splitOnChar sep [] = [[]] := rfl

theorem splitOnChar_cons (sep c : Char) (t : List Char) :
    splitOnChar sep (c :: t) =
      if c = sep then [] :: splitOnChar sep t
      else
        match splitOnChar sep t with
        | [] => [[c]]
        | s :: ss => (c :: s) :: ss := rfl

theorem splitOnChar_ne_nil (sep : Char) (l : List Char) : splitOnChar sep l ≠ [] := by
  induction l with
  | nil => simp [splitOnChar_nil]
  | cons c t ih =>
    rw [splitOnChar_cons]
    by_cases hc : c = sep
    · simp [hc]
    · rw [if_neg hc]
      rcases h : splitOnChar sep t with _ | ⟨s, ss⟩
      · exact absurd h ih
      · simp

theorem not_mem_of_mem_splitOnChar (sep : Char) (l : List Char) :
    ∀ s ∈ splitOnChar sep l, sep ∉ s := by
  induction l with
  | nil =>
    intro s hs
    rw [splitOnChar_nil, List.mem_singleton] at hs
    subst hs
    simp
  | cons c t ih =>
    intro s hs
    rw [splitOnChar_cons] at hs
    by_cases hc : c = sep
    · rw [if_pos hc, List.mem_cons] at hs
      rcases hs with rfl | hs
      · simp
      · exact ih s hs
    · rw [if_neg hc] at hs
      rcases h : splitOnChar sep t with _ | ⟨s₀, ss⟩
      · exact absurd h (splitOnChar_ne_nil sep t)
      · rw [h, List.mem_cons] at hs
        rcases hs with rfl | hs
        · intro hm
          rcases List.mem_cons.mp hm with he | hm
          · exact hc he.symm
          · exact ih s₀ (h ▸ List.mem_cons_self s₀ ss) hm
        · exact ih s (h ▸ List.mem_cons_of_mem s₀ hs)

theorem splitOnChar_of_not_mem {sep : Char} {s : List Char} (h : sep ∉ s) :
    splitOnChar sep s = [s] := by
  induction s with
  | nil => rfl
  | cons c t ih =>
    have hc : ¬ c = sep := by
      rintro rfl
      exact h (List.mem_cons_self _ _)
    have h2 : sep ∉ t := fun hm => h (List.mem_cons_of_mem c hm)
    rw [splitOnChar_cons, if_neg hc, ih h2]

theorem splitOnChar_append {sep : Char} {s : List Char} (h : sep ∉ s) (t : List Char) :
    splitOnChar sep (s ++ sep :: t) = s :: splitOnChar sep t := by
  induction s with
  | nil => simp [splitOnChar_cons]
  | cons c s' ih =>
    have hc : ¬ c = sep := by
      rintro rfl
      exact h (List.mem_cons_self _ _)
    have h2 : sep ∉ s' := fun hm => h (List.mem_cons_of_mem c hm)
    rw [List.cons_append, splitOnChar_cons, if_neg hc, ih h2]

theorem splitOnChar_joinChar (sep : Char) :
    ∀ ss : List (List Char), ss ≠ [] → (∀ s ∈ ss, sep ∉ s) →
      splitOnChar sep (joinChar sep ss) = ss := by
  intro ss
  induction ss with
  | nil => intro h _; exact absurd rfl h
  | cons s ss ih =>
    intro _ hmem
    rcases ss with _ | ⟨s', ss'⟩
    · exact splitOnChar_of_not_mem (hmem s (by simp))
    · rw [show joinChar sep (s :: s' :: ss') = s ++ sep :: joinChar sep (s' :: ss') from rfl,
        splitOnChar_append (hmem s (by simp)),
        ih (by simp) (fun x hx => hmem x (List.mem_cons_of_mem s hx))]

theorem subSegs_eq3 (A nv u u' u'' : List Char) (us : List (List Char)) :
    subSegs A nv (u :: u' :: u'' :: us) =
      if endsWithChars A u ∧ u' ≠ [] then u :: nv :: subSegs A nv (u'' :: us)
      else u :: subSegs A nv (u' :: u'' :: us) := rfl

theorem endsWithChars_nil {A : List Char} (hA : A ≠ []) : endsWithChars A [] = false := by
  unfold endsWithChars
  rcases hr : A.reverse with _ | ⟨x, xs⟩
  · exact absurd (List.reverse_eq_nil_iff.mp hr) hA
  · rw [List.reverse_nil]
    rfl

theorem subSegs_cons (A nv u : List Char) (l : List (List Char)) :
    ∃ t, subSegs A nv (u :: l) = u :: t := by
  rcases l with _ | ⟨u', l'⟩
  · exact ⟨[], rfl⟩
  · rcases l' with _ | ⟨u'', us⟩
    · exact ⟨[u'], rfl⟩
    · rw [subSegs_eq3]
      by_cases hc : endsWithChars A u ∧ u' ≠ []
      · exact ⟨_, by rw [if_pos hc]⟩
      · exact ⟨_, by rw [if_neg hc]⟩

theorem subSegs_nil_head (A nv : List Char) (hA : A ≠ []) (l : List (List Char)) :
    subSegs A nv ([] :: l) = [] :: subSegs A nv l := by
  rcases l with _ | ⟨u', l'⟩
  · rfl
  · rcases l' with _ | ⟨u'', us⟩
    · rfl
    · rw [subSegs_eq3, if_neg]
      rintro ⟨he, _⟩
      rw [endsWithChars_nil hA] at he
      exact Bool.false_ne_true he

theorem mem_subSegs (A nv : List Char) :
    ∀ (l : List (List Char)) (s : List Char), s ∈ subSegs A nv l → s ∈ l ∨ s = nv := by
  have key : ∀ (n : Nat) (l : List (List Char)), l.length ≤ n →
      ∀ s, s ∈ subSegs A nv l → s ∈ l ∨ s = nv := by
    intro n
    induction n with
    | zero =>
      intro l hl s hs
      rw [List.length_eq_zero.mp (Nat.le_zero.mp hl)] at hs ⊢
      exact Or.inl hs
    | succ n ih =>
      intro l hl s hs
      match l with
      | [] => exact Or.inl hs
      | [u] => exact Or.inl hs
      | [u, u'] => exact Or.inl hs
      | u :: u' :: u'' :: us =>
        simp only [List.length_cons] at hl
        rw [subSegs_eq3] at hs
        by_cases hc : endsWithChars A u ∧ u' ≠ []
        · rw [if_pos hc] at hs
          rcases List.mem_cons.mp hs with rfl | hs
          · exact Or.inl (List.mem_cons_self _ _)
          · rcases List.mem_cons.mp hs with rfl | hs
            · exact Or.inr rfl
            · rcases ih (u'' :: us) (by simpa using by omega) s hs with h | h
              · exact Or.inl (List.mem_cons_of_mem _ (List.mem_cons_of_mem _ h))
              · exact Or.inr h
        · rw [if_neg hc] at hs
          rcases List.mem_cons.mp hs with rfl | hs
          · exact Or.inl (List.mem_cons_self _ _)
          · rcases ih (u' :: u'' :: us) (by simpa using by omega) s hs with h | h
            · exact Or.inl (List.mem_cons_of_mem _ h)
            · exact Or.inr h
  exact fun l => key l.length l (Nat.le_refl _)

theorem subSegs_idem (A nv : List Char) (hA : A ≠ []) :
    ∀ l : List (List Char), subSegs A nv (subSegs A nv l) = subSegs A nv l := by
  have key : ∀ (n : Nat) (l : List (List Char)), l.length ≤ n →
      subSegs A nv (subSegs A nv l) = subSegs A nv l := by
    intro n
    induction n with
    | zero =>
      intro l hl
      rw [List.length_eq_zero.mp (Nat.le_zero.mp hl)]
      rfl
    | succ n ih =>
      intro l hl
      match l with
      | [] => rfl
      | [u] => rfl
      | [u, u'] => rfl
      | u :: u' :: u'' :: us =>
        simp only [List.length_cons] at hl
        have hlen2 : (u'' :: us).length ≤ n := by simp; omega
        have hlen1 : (u' :: u'' :: us).length ≤ n := by simp; omega
        rw [subSegs_eq3]
        by_cases hc : endsWithChars A u ∧ u' ≠ []
        · rw [if_pos hc]
          rcases hX : subSegs A nv (u'' :: us) with _ | ⟨x, xs⟩
          · rfl
          · by_cases hnv : nv = []
            · subst hnv
              rw [subSegs_eq3, if_neg (fun h => h.2 rfl), subSegs_nil_head A [] hA,
                ← hX, ih (u'' :: us) hlen2, hX]
            · rw [subSegs_eq3, if_pos ⟨hc.1, hnv⟩, ← hX, ih (u'' :: us) hlen2, hX]
        · rw [if_neg hc]
          obtain ⟨t, ht⟩ := subSegs_cons A nv u' (u'' :: us)
          rw [ht]
          rcases t with _ | ⟨v, t'⟩
          · rfl
          · rw [subSegs_eq3, if_neg hc, ← ht, ih (u' :: u'' :: us) hlen1, ht]
  exact fun l => key l.length l (Nat.le_refl _)

/-- The full text-level model of one `re.sub` call in
`update_version_in_files`: substitute the new version into every
version declaration matched by `A"[^"]+"`. -/
def pySubVersion (A nv : List Char) (content : List Char) : List Char :=
  joinChar '"' (subSegs A nv (splitOnChar '"' content))

/-- `update_version_in_files` from `publish_to_pypi.py`, over the two
file contents: returns the two rewritten contents and the list of files
whose content actually changed (in the order `setup.py`,
`pyproject.toml`, as the source appends them). -/
def update_version_in_files (sc pc nv : String) : String × String × List String :=
  let nc₁ : String := ⟨pySubVersion setupA nv.data sc.data⟩
  let fu₁ : List String := if nc₁ ≠ sc then ["setup.py"] else []
  let nc₂ : String := ⟨pySubVersion pyprojectA nv.data pc.data⟩
  let fu₂ : List String := if nc₂ ≠ pc then ["pyproject.toml"] else []
  (nc₁, nc₂, fu₁ ++ fu₂)

theorem pySubVersion_idem (A nv : List Char) (hA : A ≠ []) (hq : '"' ∉ nv)
    (c : List Char) :
    pySubVersion A nv (pySubVersion A nv c) = pySubVersion A nv c := by
  unfold pySubVersion
  have hne : subSegs A nv (splitOnChar '"' c) ≠ [] := by
    rcases hsp : splitOnChar '"' c with _ | ⟨s, rest⟩
    · exact absurd hsp (splitOnChar_ne_nil _ _)
    · obtain ⟨t, ht⟩ := subSegs_cons A nv s rest
      rw [ht]
      simp
  have hmem : ∀ s ∈ subSegs A nv (splitOnChar '"' c), '"' ∉ s := by
    intro s hs
    rcases mem_subSegs A nv _ s hs with h | h
    · exact not_mem_of_mem_splitOnChar _ _ s h
    · rw [h]
      exact hq
  rw [splitOnChar_joinChar '"' _ hne hmem, subSegs_idem A nv hA]

/-- Claim C4: the in-place rewrite is idempotent — after one call of
`update_version_in_files`, a second call with the same (quote-free) new
version changes neither content and returns an empty updated-files
list; and in general the returned list holds exactly the files whose
content changed. -/
theorem update_version_in_files_idem (sc pc nv : String) (hq : '"' ∉ nv.data) :
    (update_version_in_files
        (update_version_in_files sc pc nv).1
        (update_version_in_files sc pc nv).2.1 nv =
      ((update_version_in_files sc pc nv).1, (update_version_in_files sc pc nv).2.1, [])) ∧
    (update_version_in_files sc pc nv).2.2 =
      (if (update_version_in_files sc pc nv).1 ≠ sc then ["setup.py"] else []) ++
      (if (update_version_in_files sc pc nv).2.1 ≠ pc then ["pyproject.toml"] else []) := by
  have h1 := pySubVersion_idem setupA nv.data (by decide) hq sc.data
  have h2 := pySubVersion_idem pyprojectA nv.data (by decide) hq pc.data
  constructor
  · simp [update_version_in_files, h1, h2]
  · simp [update_version_in_files]

/-- Witness for C4 at a concrete pair of metadata files: the first call
updates both files; the second call is a no-op with an empty list. -/
theorem update_version_in_files_idem_witness :
    ('"' ∉ ("1.0.1" : String).data) ∧
    (update_version_in_files "version=\"1.0.0\"" "version = \"1.0.0\"" "1.0.1").2.2 =
      ["setup.py", "pyproject.toml"] ∧
    update_version_in_files
        (update_version_in_files "version=\"1.0.0\"" "version = \"1.0.0\"" "1.0.1").1
        (update_version_in_files "version=\"1.0.0\"" "version = \"1.0.0\"" "1.0.1").2.1 "1.0.1" =
      ((update_version_in_files "version=\"1.0.0\"" "version = \"1.0.0\"" "1.0.1").1,
        (update_version_in_files "version=\"1.0.0\"" "version = \"1.0.0\"" "1.0.1").2.1, []) :=
  ⟨by decide, by decide,
    (update_version_in_files_idem "version=\"1.0.0\"" "version = \"1.0.0\"" "1.0.1"
      (by decide)).1⟩

/-- Result of the external process the script shells out to: clean exit,
non-zero exit, or the named executable not existing at all. -/
inductive RunOutcome
  | ok
  | nonzeroExit
  | execNotFound
deriving DecidableEq, Repr

/-- The Python exceptions relevant to this program. -/
inductive PyExc
  | calledProcessError
  | fileNotFoundError
  | valueError
deriving DecidableEq, Repr

/-- Model of `subprocess.run(cmd, check=True)`: a non-zero exit raises
`CalledProcessError`; a missing executable raises `FileNotFoundError`
(which `except subprocess.CalledProcessError` does not catch). -/
def pyRunCheck : RunOutcome → Except PyExc Unit
  | .ok => .ok ()
  | .nonzeroExit => .error .calledProcessError
  | .execNotFound => .error .fileNotFoundError

/-- `build_package` from `publish_to_pypi.py`: runs
`sys.executable -m build` and catches only `CalledProcessError`,
printing a message naming the `build` package and returning `False`.
Returns the boolean result and the printed messages; an uncaught
exception is an `Except.error`.  (The tool runs through the current
interpreter, so a missing `build` package surfaces as a non-zero exit,
not as a missing executable.) -/
def build_package (o : RunOutcome) : Except PyExc (Bool × List String) :=
  match pyRunCheck o with
  | .ok _ => .ok (true, [])
  | .error .calledProcessError =>
      .ok (false, ["打包失敗，請確認已安裝 build 套件: pip install build"])
  | .error e => .error e

/-- `upload_to_pypi` from `publish_to_pypi.py`: runs `twine upload`
(with an extra `--repository-url` argument when `test` is true, which
does not affect the failure handling) and catches only
`CalledProcessError`.  A missing `twine` executable raises
`FileNotFoundError`, which is not caught. -/
def upload_to_pypi (test : Bool) (o : RunOutcome) : Except PyExc (Bool × List String) :=
  match test, pyRunCheck o with
  | _, .ok _ => .ok (true, [])
  | _, .error .calledProcessError =>
      .ok (false, ["上傳失敗，請確認已安裝 twine 套件: pip install twine"])
  | _, .error e => .error e

/-- Counterexample to claim C5 as stated: when the upload tool's
executable is not installed, `upload_to_pypi` lets the resulting
`FileNotFoundError` escape instead of returning `False`. -/
theorem upload_to_pypi_exception_escape :
    upload_to_pypi false RunOutcome.execNotFound = Except.error PyExc.fileNotFoundError := rfl

/-- Claim C5 (amended): failures signalled by a non-zero exit status of
the external tool are caught by both `build_package` and
`upload_to_pypi` and translated into a printed message naming the
missing package plus a `False` result (and a clean exit yields `True`);
but a missing tool executable raises `FileNotFoundError`, which neither
function catches — in particular `upload_to_pypi` lets it escape when
`twine` is not installed, while `build_package` runs its tool through
the already-running interpreter, where a missing `build` package
surfaces as a non-zero exit and is caught. -/
theorem build_upload_error_handling :
    (build_package RunOutcome.nonzeroExit =
        Except.ok (false, ["打包失敗，請確認已安裝 build 套件: pip install build"]) ∧
      build_package RunOutcome.ok = Except.ok (true, [])) ∧
    (∀ t : Bool, upload_to_pypi t RunOutcome.nonzeroExit =
        Except.ok (false, ["上傳失敗，請確認已安裝 twine 套件: pip install twine"]) ∧
      upload_to_pypi t RunOutcome.ok = Except.ok (true, [])) ∧
    (∀ t : Bool, upload_to_pypi t RunOutcome.execNotFound =
        Except.error PyExc.fileNotFoundError) :=
  ⟨⟨rfl, rfl⟩, fun _ => ⟨rfl, rfl⟩, fun _ => rfl⟩

/-- The literal of the `PKG-INFO` pattern `Version: ([\d\.]+)`. -/
def versionColonLit : List Char := "Version: ".data

/-- A character matched by the class `[\d\.]` (ASCII reading). -/
def isVerChar (c : Char) : Bool := c.isDigit || c = '.'

/-- Model of `re.search(r'Version: ([\d\.]+)', content)`: scan left to
right for the literal followed by a nonempty greedy run of digits and
dots; the capture is that run. -/
def searchVersionColon : List Char → Option (List Char)
  | [] => none
  | c :: rest =>
    if startsWithChars versionColonLit (c :: rest) then
      let w := ((c :: rest).drop versionColonLit.length).takeWhile isVerChar
      if w ≠ [] then some w else searchVersionColon rest
    else searchVersionColon rest

/-- One entry of the working directory listing as seen by
`check_egg_info_version`: its name and, when the entry contains a
readable `PKG-INFO` file, that file's content. -/
structure DirEntry where
  name : String
  pkgInfo : Option String
deriving DecidableEq, Repr

/-- The suffix the `os.listdir` filter checks for. -/
def eggSuffix : List Char := ".egg-info".data

/-- The warning `check_egg_info_version` prints on a mismatch
(`os.path.join` of the directory and `PKG-INFO`). -/
def eggWarnMsg (dir found target : String) : String :=
  "警告: " ++ dir ++ "/PKG-INFO 中的版本號 (" ++ found ++ ") 與目標版本 (" ++ target ++
    ") 不一致"

/-- One iteration of the `for egg_dir in egg_dirs` loop of
`check_egg_info_version`: `some warning` when this entry has a readable
`PKG-INFO` whose matched version differs from the target (the loop then
prints the warning and returns `False` at once), `none` when the loop
moves on (no `PKG-INFO`, no version match, or an equal version). -/
def checkEggStep (new_version : String) (e : DirEntry) : Option (List String) :=
  match e.pkgInfo with
  | none => none
  | some content =>
    match searchVersionColon content.data with
    | none => none
    | some w =>
      if (⟨w⟩ : String) ≠ new_version then some [eggWarnMsg e.name ⟨w⟩ new_version]
      else none

/-- The `for egg_dir in egg_dirs` loop of `check_egg_info_version`. -/
def checkEggLoop (new_version : String) : List DirEntry → Bool × List String
  | [] => (true, [])
  | e :: es =>
    match checkEggStep new_version e with
    | some warn => (false, warn)
    | none => checkEggLoop new_version es

/-- `check_egg_info_version` from `publish_to_pypi.py`: filter the
directory listing for `*.egg-info` names, then run the loop. -/
def check_egg_info_version (new_version : String) (listing : List DirEntry) :
    Bool × List String :=
  checkEggLoop new_version (listing.filter (fun e => endsWithChars eggSuffix e.name.data))

theorem checkEggLoop_cons (nv : String) (e : DirEntry) (es : List DirEntry) :
    checkEggLoop nv (e :: es) =
      match checkEggStep nv e with
      | some warn => (false, warn)
      | none => checkEggLoop nv es := rfl

theorem checkEggLoop_append {nv : String} :
    ∀ xs l, checkEggLoop nv xs = (true, []) →
      checkEggLoop nv (xs ++ l) = checkEggLoop nv l := by
  intro xs
  induction xs with
  | nil => intro l _; rfl
  | cons e es ih =>
    intro l hx
    rw [List.cons_append, checkEggLoop_cons]
    rw [checkEggLoop_cons] at hx
    rcases hs : checkEggStep nv e with _ | warn
    · rw [hs] at hx
      exact ih l hx
    · rw [hs] at hx
      exact absurd hx (by simp)

theorem checkEggStep_some {nv : String} {e : DirEntry} {warn : List String}
    (h : checkEggStep nv e = some warn) : ∃ m, warn = [m] := by
  obtain ⟨name, pkgInfo⟩ := e
  rcases pkgInfo with _ | c
  · simp [checkEggStep] at h
  · rcases hw : searchVersionColon c.data with _ | w
    · simp only [checkEggStep, hw] at h
      cases h
    · simp only [checkEggStep, hw] at h
      by_cases hne : (⟨w⟩ : String) ≠ nv
      · rw [if_pos hne] at h
        exact ⟨_, (Option.some.inj h).symm⟩
      · rw [if_neg hne] at h
        cases h

theorem checkEggLoop_false_warn {nv : String} :
    ∀ l, (checkEggLoop nv l).1 = false → ∃ m, (checkEggLoop nv l).2 = [m] := by
  intro l
  induction l with
  | nil => intro h; exact absurd h (by simp [checkEggLoop])
  | cons e es ih =>
    intro h
    rw [checkEggLoop_cons] at h ⊢
    rcases hs : checkEggStep nv e with _ | warn
    · rw [hs] at h
      exact ih h
    · exact checkEggStep_some hs

/-- Claim C10: when the working directory holds no `*.egg-info` entry,
`check_egg_info_version` returns `True` for every expected new version;
and when a mismatching entry is reached, it returns `False` with that
entry's warning immediately — the entries after it (here `post`,
unconstrained and absent from the conclusion) are never examined. -/
theorem check_egg_info_version_spec :
    (∀ (nv : String) (listing : List DirEntry),
      (∀ e ∈ listing, endsWithChars eggSuffix e.name.data = false) →
      check_egg_info_version nv listing = (true, [])) ∧
    (∀ (nv : String) (pre post : List DirEntry) (bad : DirEntry) (warn : List String),
      checkEggLoop nv (pre.filter (fun e => endsWithChars eggSuffix e.name.data)) = (true, []) →
      endsWithChars eggSuffix bad.name.data = true →
      checkEggStep nv bad = some warn →
      check_egg_info_version nv (pre ++ bad :: post) = (false, warn)) := by
  constructor
  · intro nv listing h
    unfold check_egg_info_version
    rw [List.filter_eq_nil_iff.mpr (fun e he => by simp [h e he])]
    rfl
  · intro nv pre post bad warn hpre hb hs
    unfold check_egg_info_version
    rw [List.filter_append, List.filter_cons, if_pos hb, checkEggLoop_append _ _ hpre,
      checkEggLoop_cons, hs]

/-- Witness for C10: an egg-info-free listing passes, and a listing with
a mismatching `pkg.egg-info` fails at once with its warning even though
a second mismatching directory follows. -/
theorem check_egg_info_version_spec_witness :
    check_egg_info_version "1.2.4" [⟨"README.md", none⟩] = (true, []) ∧
    check_egg_info_version "1.2.4"
        ([] ++ (⟨"pkg.egg-info", some "Version: 1.2.3"⟩ : DirEntry) ::
          [⟨"zzz.egg-info", some "Version: 9.9.9"⟩]) =
      (false, [eggWarnMsg "pkg.egg-info" "1.2.3" "1.2.4"]) :=
  ⟨check_egg_info_version_spec.1 "1.2.4" [⟨"README.md", none⟩] (by decide),
    check_egg_info_version_spec.2 "1.2.4" [] [⟨"zzz.egg-info", some "Version: 9.9.9"⟩]
      ⟨"pkg.egg-info", some "Version: 1.2.3"⟩ [eggWarnMsg "pkg.egg-info" "1.2.3" "1.2.4"]
      (by decide) (by decide) (by decide)⟩

/-- One entry of the working directory as seen by
`clean_build_directories`: name and whether it is a directory. -/
structure FsEntry where
  name : String
  isDir : Bool
deriving DecidableEq, Repr

/-- Membership in `glob.glob('*.egg-info')`: the name ends in
`.egg-info`, and (as `glob`'s `*` does not match a leading dot) does not
start with `.`. -/
def eggMatch (e : FsEntry) : Bool :=
  endsWithChars eggSuffix e.name.data && !(startsWithChars ['.'] e.name.data)

/-- `clean_build_directories` from `publish_to_pypi.py`, over a
snapshot of the working directory: `build` and `dist` are removed (with
a message) only when present as directories; every `*.egg-info` glob
match is removed, directories and plain files alike, each with a
message.  Returns the remaining entries and the printed messages; on a
consistent snapshot no operation can raise, so the model is total. -/
def clean_build_directories (fs : List FsEntry) : List FsEntry × List String :=
  let hasBuild := fs.any (fun e => e.name == "build" && e.isDir)
  let fs₁ := if hasBuild then fs.filter (fun e => !(e.name == "build")) else fs
  let m₁ : List String := if hasBuild then ["清理目錄: build"] else []
  let hasDist := fs₁.any (fun e => e.name == "dist" && e.isDir)
  let fs₂ := if hasDist then fs₁.filter (fun e => !(e.name == "dist")) else fs₁
  let m₂ : List String := if hasDist then ["清理目錄: dist"] else []
  let eggs := fs₂.filter eggMatch
  let m₃ := eggs.map (fun e => (if e.isDir then "清理目錄: " else "刪除檔案: ") ++ e.name)
  (fs₂.filter (fun e => !(eggMatch e)), m₁ ++ m₂ ++ m₃)

/-- Claim C9: on a working directory containing none of `build`, `dist`
or any `*.egg-info` entry, `clean_build_directories` is a no-op — it
deletes nothing, prints nothing, and (being total) raises nothing. -/
theorem clean_build_directories_noop (fs : List FsEntry)
    (h : ∀ e ∈ fs, e.name ≠ "build" ∧ e.name ≠ "dist" ∧
      endsWithChars eggSuffix e.name.data = false) :
    clean_build_directories fs = (fs, []) := by
  have hb : fs.any (fun e => e.name == "build" && e.isDir) = false := by
    rw [List.any_eq_false]
    intro e he
    simp [(h e he).1]
  have hd : fs.any (fun e => e.name == "dist" && e.isDir) = false := by
    rw [List.any_eq_false]
    intro e he
    simp [(h e he).2.1]
  have hegg : ∀ e ∈ fs, eggMatch e = false := by
    intro e he
    simp [eggMatch, (h e he).2.2]
  have h1 : fs.filter eggMatch = [] :=
    List.filter_eq_nil_iff.mpr (fun e he => by simp [hegg e he])
  have h2 : fs.filter (fun e => !(eggMatch e)) = fs :=
    List.filter_eq_self.mpr (fun e he => by simp [hegg e he])
  simp [clean_build_directories, hb, hd, h1, h2]

/-- Witness for C9 on a directory with only unrelated entries. -/
theorem clean_build_directories_noop_witness :
    ((⟨"src", true⟩ : FsEntry).name ≠ "build") ∧
    clean_build_directories [⟨"src", true⟩, ⟨"README.md", false⟩] =
      ([⟨"src", true⟩, ⟨"README.md", false⟩], []) :=
  ⟨by decide, clean_build_directories_noop [⟨"src", true⟩, ⟨"README.md", false⟩] (by decide)⟩

/-- ASCII model of `str.lower()` on one character. -/
def pyLowerChar (c : Char) : Char :=
  if 'A' ≤ c ∧ c ≤ 'Z' then Char.ofNat (c.toNat + 32) else c

/-- ASCII model of `str.lower()`, applied to the interactive answers
(`y`/anything-else prompts). -/
def pyLower (s : String) : String := ⟨s.data.map pyLowerChar⟩

/-- Everything outside the process that one run of `main` can observe:
whether the two metadata files exist and their contents, the three
interactive answers, the outcomes of the two external tools, and the
directory listing seen by `check_egg_info_version` after the build.
(`clean_build_directories` acts only on build artifacts, which nothing
later in the run reads back — the post-build listing is given
separately — so the cleanup step has no observable effect here.) -/
structure World where
  setup_exists : Bool
  pyproject_exists : Bool
  setup_content : String
  pyproject_content : String
  confirm_input : String
  test_input : String
  retry_input : String
  build_outcome : RunOutcome
  upload_outcome : RunOutcome
  eggs_after_build : List DirEntry
deriving Repr

/-- What one run of `main` produces: the return code, whether the
upload tool was ever invoked, and the failure-path messages printed on
the taken exit path (purely informational prints are not tracked). -/
structure MainResult where
  exit : Nat
  upload_attempted : Bool
  msgs : List String
deriving DecidableEq, Repr

/-- The `main` function of `publish_to_pypi.py`: check the files exist, read and
increment the version (a `ValueError` from `int` propagates), confirm,
clean, rewrite the files (empty update list is fatal), ask about the
test index, build, cross-check the egg-info version (with a second
confirmation on mismatch), and upload.  Uncaught exceptions are
`Except.error`. -/
def mainWorkflow (w : World) : Except PyExc MainResult :=
  if !(w.setup_exists && w.pyproject_exists) then
    .ok ⟨1, false, ["錯誤: 無法找到 setup.py 或 pyproject.toml 檔案"]⟩
  else
    match increment_version (get_current_version w.setup_content w.pyproject_content).1 with
    | none => .error .valueError
    | some new_version =>
      if pyLower w.confirm_input ≠ "y" then .ok ⟨0, false, ["操作已取消"]⟩
      else
        let upd := update_version_in_files w.setup_content w.pyproject_content new_version
        if upd.2.2 = [] then .ok ⟨1, false, ["沒有更新任何文件"]⟩
        else
          let use_test := pyLower w.test_input = "y"
          match build_package w.build_outcome with
          | .error e => .error e
          | .ok (ok, bmsgs) =>
            if !ok then .ok ⟨1, false, bmsgs⟩
            else
              let chk := check_egg_info_version new_version w.eggs_after_build
              if !chk.1 && !(pyLower w.retry_input == "y") then
                .ok ⟨1, false, chk.2 ++ ["操作已取消"]⟩
              else
                match upload_to_pypi use_test w.upload_outcome with
                | .error e => .error e
                | .ok (uok, umsgs) =>
                  if !uok then .ok ⟨1, true, umsgs⟩
                  else .ok ⟨0, true, []⟩

/-- Claim C6: in every run of `main` that reaches the build step and
whose build tool exits non-zero, the failure message is reported, the
exit code is 1, and the upload tool is never invoked (note the
conclusion is independent of `w.upload_outcome`). -/
theorem main_build_failure (w : World) (nv : String)
    (h1 : w.setup_exists = true) (h2 : w.pyproject_exists = true)
    (hnv : increment_version (get_current_version w.setup_content w.pyproject_content).1 =
      some nv)
    (hc : pyLower w.confirm_input = "y")
    (hu : (update_version_in_files w.setup_content w.pyproject_content nv).2.2 ≠ [])
    (hb : w.build_outcome = RunOutcome.nonzeroExit) :
    mainWorkflow w = .ok ⟨1, false, ["打包失敗，請確認已安裝 build 套件: pip install build"]⟩ := by
  have hbp : build_package w.build_outcome =
      Except.ok (false, ["打包失敗，請確認已安裝 build 套件: pip install build"]) := by
    rw [hb]
    rfl
  simp only [mainWorkflow, h1, h2, hnv, hc, hbp]
  simp [hu]

/-- A concrete run for C6: consistent `1.2.3` metadata, user confirms,
build exits non-zero. -/
def worldBuildFail : World :=
  ⟨true, true, "version=\"1.2.3\"", "version = \"1.2.3\"", "y", "n", "n",
    RunOutcome.nonzeroExit, RunOutcome.ok, []⟩

/-- Witness for C6 on `worldBuildFail`. -/
theorem main_build_failure_witness :
    increment_version (get_current_version worldBuildFail.setup_content
        worldBuildFail.pyproject_content).1 = some "1.2.4" ∧
    (update_version_in_files worldBuildFail.setup_content
        worldBuildFail.pyproject_content "1.2.4").2.2 ≠ [] ∧
    mainWorkflow worldBuildFail =
      .ok ⟨1, false, ["打包失敗，請確認已安裝 build 套件: pip install build"]⟩ :=
  ⟨by decide, by decide,
    main_build_failure worldBuildFail "1.2.4" rfl rfl (by decide) (by decide) (by decide) rfl⟩

/-- Claim C7: a `PKG-INFO` version mismatch makes
`check_egg_info_version` return a non-fatal `False` together with an
emitted warning (never an exception — the model is total); and in every
run of `main` where the check fails and the user then declines the
extra confirmation, the exit code is 1 and the upload tool is never
invoked. -/
theorem main_egg_mismatch_decline :
    (∀ (nv : String) (l : List DirEntry), (check_egg_info_version nv l).1 = false →
      ∃ m, (check_egg_info_version nv l).2 = [m]) ∧
    (∀ (w : World) (nv : String) (warns : List String),
      w.setup_exists = true → w.pyproject_exists = true →
      increment_version (get_current_version w.setup_content w.pyproject_content).1 =
        some nv →
      pyLower w.confirm_input = "y" →
      (update_version_in_files w.setup_content w.pyproject_content nv).2.2 ≠ [] →
      w.build_outcome = RunOutcome.ok →
      check_egg_info_version nv w.eggs_after_build = (false, warns) →
      pyLower w.retry_input ≠ "y" →
      mainWorkflow w = .ok ⟨1, false, warns ++ ["操作已取消"]⟩) := by
  constructor
  · intro nv l h
    exact checkEggLoop_false_warn _ h
  · intro w nv warns h1 h2 hnv hc hu hbuild hchk hr
    have hbp : build_package w.build_outcome = Except.ok (true, []) := by
      rw [hbuild]
      rfl
    simp only [mainWorkflow, h1, h2, hnv, hc, hbp, hchk]
    simp [hu, hr]

/-- A concrete run for C7: the build succeeds but the generated
`PKG-INFO` still reports `1.2.3` while the expected new version is
`1.2.4`, and the user declines to continue. -/
def worldEggMismatch : World :=
  ⟨true, true, "version=\"1.2.3\"", "version = \"1.2.3\"", "y", "n", "n",
    RunOutcome.ok, RunOutcome.ok, [⟨"pkg.egg-info", some "Version: 1.2.3"⟩]⟩

/-- Witness for C7 on `worldEggMismatch`. -/
theorem main_egg_mismatch_decline_witness :
    check_egg_info_version "1.2.4" worldEggMismatch.eggs_after_build =
      (false, [eggWarnMsg "pkg.egg-info" "1.2.3" "1.2.4"]) ∧
    mainWorkflow worldEggMismatch =
      .ok ⟨1, false, [eggWarnMsg "pkg.egg-info" "1.2.3" "1.2.4"] ++ ["操作已取消"]⟩ :=
  ⟨by decide,
    main_egg_mismatch_decline.2 worldEggMismatch "1.2.4"
      [eggWarnMsg "pkg.egg-info" "1.2.3" "1.2.4"]
      rfl rfl (by decide) (by decide) (by decide) rfl (by decide) (by decide)⟩

/-- Exceptions on the plugin-loader side, split by Python's `except
Exception` boundary: `exc` stands for an `Exception`-derived error,
`baseExc` for a `BaseException`-derived signal such as `SystemExit` or
`KeyboardInterrupt`, which `except Exception` does not catch. -/
inductive PyError
  | exc (msg : String)
  | baseExc (msg : String)
deriving DecidableEq, Repr

/-- Does this behaviour of the feature module's `load_plugin` raise a
`BaseException`-derived signal? -/
def raisesBase : Option (Except PyError Unit) → Bool
  | some (.error (.baseExc _)) => true
  | _ => false

/-- The plugin entry point `load` from `__init__.py`, parameterised by
the behaviour of the feature module's `load_plugin` function: `none`
when both import strategies failed (so `gpt_load_plugin` is `None` and
the entry point is a no-op), otherwise the call's result.  An
`Exception`-derived error is caught, the error line is printed and the
traceback logged (modelled by the `<traceback>` entry); anything else
propagates.  Returns the printed lines. -/
def pluginLoad (gpt : Option (Except PyError Unit)) : Except PyError (List String) :=
  match gpt with
  | none => .ok []
  | some (.ok _) => .ok []
  | some (.error (.exc m)) => .ok ["載入 GPT 插件時出錯: " ++ m, "<traceback>"]
  | some (.error (.baseExc m)) => .error (.baseExc m)

/-- Counterexample to claim C8 as stated: a feature module whose
initialization raises the exception `SystemExit` (a `BaseException`)
makes the entry point itself raise — the host does observe it. -/
theorem pluginLoad_base_exception_escape :
    pluginLoad (some (Except.error (PyError.baseExc "SystemExit"))) =
      Except.error (PyError.baseExc "SystemExit") := rfl

/-- Claim C8 (amended): for every behaviour of the feature module's
load function that does not raise a `BaseException`-derived signal,
the entry point returns normally — any `Exception`-derived error during
initialization is caught, logged with a traceback, and swallowed. -/
theorem pluginLoad_returns_normally (g : Option (Except PyError Unit))
    (h : raisesBase g = false) : ∃ msgs, pluginLoad g = Except.ok msgs := by
  match g with
  | none => exact ⟨[], rfl⟩
  | some (.ok _) => exact ⟨[], rfl⟩
  | some (.error (.exc m)) => exact ⟨_, rfl⟩
  | some (.error (.baseExc m)) => simp [raisesBase] at h

/-- Witness for C8 (amended) at an initialization that raises an
ordinary `Exception`. -/
theorem pluginLoad_returns_normally_witness :
    raisesBase (some (Except.error (PyError.exc "boom"))) = false ∧
    ∃ msgs, pluginLoad (some (Except.error (PyError.exc "boom"))) = Except.ok msgs :=
  ⟨rfl, pluginLoad_returns_normally (some (Except.error (PyError.exc "boom"))) rfl⟩
